import Mathlib

/-!
Verification development for the `hdmf` container module
(`src/hdmf/container.py`): the `AbstractContainer` / `Container` / `Data`
class hierarchy.

The embedding below is a shallow translation of the Python source:

* A `Data` payload (`Data.__data`) is one of the backing representations the
  source type-checks against: a Python `list` (growable sequence), a
  `numpy.ndarray` (fixed-shape array), an `h5py.Dataset` (external growable
  store), or anything else (`other`, carrying the type name used in the
  error message).  `Data.append` / `Data.extend` translate the dispatch in
  `Data.append` / `Data.extend` of the source.  Element values are modelled
  as `Int`; `numpy.append` concatenates (flattening its second argument),
  and the `h5py` branch resizes and writes at the tail.

* The container tree is a `State`: a total map from natural-number object
  identities to `Node` records (one per `AbstractContainer` instance) plus a
  total map from identities to `Proxy` records.  `Node.isCont` distinguishes
  instances of `Container` from plain `AbstractContainer`/`Data` instances:
  the source dispatches on `isinstance(-, Container)` in some places and
  `isinstance(-, AbstractContainer)` in others, and the distinction is
  observable.  `ParentRef` is the value of the `__parent` slot: `null`
  (Python `None`), `node i` (another container), or `proxy p` (an
  unresolved `Proxy`).

* Mutating methods are explicit state transformers.  Python exceptions are
  `Except.error` (the exact `repr` interpolations of the source messages are
  elided; the text kept is the stable part of the message).  Unbounded
  recursion in the source (`set_modified` climbs the parent chain, which the
  source does not protect against cycles) is modelled with explicit fuel:
  an `Option` result where `none` means the recursion did not terminate
  within the given fuel.
-/

/-! ## Data buffers (`Data.append`, `Data.extend`) -/

/-- The backing representation of `Data.__data`, as dispatched on by
`Data.append`/`Data.extend`: a Python `list`, a `numpy.ndarray`, an
`h5py.Dataset`, or any other object (with its type name, used in the
error message). -/

inductive DataVal where
  | list (xs : List Int)
  | ndarray (xs : List Int)
  | h5 (xs : List Int)
  | other (tname : String)
deriving DecidableEq, Repr

/-- `Data.append` (container.py lines 421-433).  `list` appends in place;
`ndarray` rebinds `__data` to `np.append(__data, [arg])`; `h5py.Dataset`
grows the first dimension by one and writes at the tail; anything else
raises `ValueError` naming the concrete type. -/
def Data.append : DataVal → Int → Except String DataVal
  | DataVal.list xs, a => Except.ok (DataVal.list (xs ++ [a]))
  | DataVal.ndarray xs, a => Except.ok (DataVal.ndarray (xs ++ [a]))
  | DataVal.h5 xs, a => Except.ok (DataVal.h5 (xs ++ [a]))
  | DataVal.other t, _ =>
      Except.error ("Data cannot append to object of type " ++ t)

/-- `Data.extend` (container.py lines 435-447).  `list` extends in place;
`ndarray` rebinds `__data` to `np.append(__data, [arg])` (numpy flattens, so
the elements of `arg` are concatenated); `h5py.Dataset` grows the first
dimension by `len(arg)` and writes the tail; anything else raises
`ValueError` naming the concrete type. -/
def Data.extend : DataVal → List Int → Except String DataVal
  | DataVal.list xs, ys => Except.ok (DataVal.list (xs ++ ys))
  | DataVal.ndarray xs, ys => Except.ok (DataVal.ndarray (xs ++ ys))
  | DataVal.h5 xs, ys => Except.ok (DataVal.h5 (xs ++ ys))
  | DataVal.other t, _ =>
      Except.error ("Data cannot extend object of type " ++ t)

/-! ## The container tree -/

/-- The value of the private `__parent` slot of an `AbstractContainer`:
`None`, a concrete container (by object identity), or an unresolved
`Proxy` (by proxy identity). -/
inductive ParentRef where
  | null
  | node (i : Nat)
  | proxy (p : Nat)
deriving DecidableEq, Repr

/-- A soft-link placeholder.  The source only calls `matches` and
`add_candidate` on it (the class itself lives outside this module); the
`matchSet` encodes the extension of its `matches` predicate, and
`candidates` the list accumulated by `add_candidate`. -/
structure Proxy where
  matchSet : List ParentRef
  candidates : List ParentRef
deriving DecidableEq, Repr

def Proxy.matches (p : Proxy) (c : ParentRef) : Bool :=
  p.matchSet.contains c

def Proxy.add_candidate (p : Proxy) (c : ParentRef) : Proxy :=
  { p with candidates := p.candidates ++ [c] }

/-- A value stored in a `Container` field slot that a child-designated
setter may receive: a bare container, a tuple/list of containers, a dict
whose values are containers, or a Python `set` of containers (which the
source does *not* treat as a sequence). -/
inductive CVal where
  | single (i : Nat)
  | seq (is : List Nat)
  | dict (kvs : List (String × Nat))
  | setv (is : List Nat)
deriving DecidableEq, Repr

/-- The per-instance state of one `AbstractContainer`: `__name`,
whether the instance's class is a subclass of `Container` (`isCont`),
its `data_type` attribute, `__parent`, `__children`, `__modified`, and
`__field_values`. -/
structure Node where
  name : String
  isCont : Bool
  dataType : String
  parent : ParentRef
  children : List Nat
  modified : Bool
  fieldVals : List (String × CVal)
deriving DecidableEq, Repr

/-- The whole heap: every object identity maps to a `Node`, every proxy
identity to a `Proxy`. -/
structure State where
  nodes : Nat → Node
  proxies : Nat → Proxy

def updNode (s : State) (i : Nat) (n : Node) : State :=
  { s with nodes := fun k => if k = i then n else s.nodes k }

def updProxy (s : State) (p : Nat) (pr : Proxy) : State :=
  { s with proxies := fun k => if k = p then pr else s.proxies k }

/-! ### Single-field state updates

The source mutates one attribute of one object at a time; these helpers
name those single-field writes so that later lemmas can speak about them
without exposing whole record literals. -/

/-- Write the `__modified` flag of node `i`. -/
def markModified (s : State) (i : Nat) (m : Bool) : State :=
  updNode s i { s.nodes i with modified := m }

/-- Write the `__parent` slot of node `x`. -/
def setParentField (s : State) (x : Nat) (p : ParentRef) : State :=
  updNode s x { s.nodes x with parent := p }

/-- `j.__children.append(x)`. -/
def appendChild (s : State) (j x : Nat) : State :=
  updNode s j { s.nodes j with children := (s.nodes j).children ++ [x] }

/-- Replace the `__field_values` mapping of node `i`. -/
def setFields (s : State) (i : Nat) (fv : List (String × CVal)) : State :=
  updNode s i { s.nodes i with fieldVals := fv }

/-! ## `set_modified` (container.py lines 156-162)

`set_modified` writes the flag and, when setting `True`, recurses into the
parent precisely when `isinstance(self.parent, Container)` holds — note
`Container`, not `AbstractContainer`.  The recursion is unbounded in the
source (a parent cycle would recurse forever), so the translation takes
fuel; `none` means the recursion did not finish. -/

def set_modified : Nat → State → Nat → Bool → Option State
  | 0, _, _, _ => none
  | fuel+1, s, i, m =>
    let s1 := markModified s i m
    if m then
      match (s.nodes i).parent with
      | ParentRef.node j =>
          if (s1.nodes j).isCont then set_modified fuel s1 j true else some s1
      | _ => some s1
    else some s1

/-! ## The `parent` property setter (container.py lines 208-233) -/

/-- The shared tail of the two "adopt" paths of the parent setter:
`self.__parent = parent_container; parent_container.__children.append(self);
parent_container.set_modified()`. -/
def attach (fuel : Nat) (s : State) (x j : Nat) : Option State :=
  set_modified fuel (appendChild (setParentField s x (ParentRef.node j)) j x)
    j true

/-- Stable part of the `ValueError` message raised on reassigning a
concrete parent (the source interpolates `repr(self)`/`repr(self.parent)`). -/
def reparent_msg : String :=
  "Cannot reassign parent to Container. Parent is already set."

/-- Stable part of the `ValueError` message raised on assigning `None`
over a pending `Proxy` parent. -/
def none_over_proxy_msg : String :=
  "Got None for parent - cannot overwrite Proxy with NoneType"

/-- Message for the `AttributeError` the source would hit on the
(unreachable in practice) path where a matching *Proxy* object is adopted
as parent: a `Proxy` has no `_AbstractContainer__children` list. -/
def proxy_children_msg : String :=
  "Proxy object has no attribute _AbstractContainer__children"

/-- The `parent` property setter of `AbstractContainer`
(container.py lines 208-233):

1. `self.parent is parent_container` → return (identity no-op);
2. current parent a concrete `AbstractContainer` → `ValueError`;
3. current parent a `Proxy`: `None` → `ValueError`; otherwise ask the proxy
   `matches(parent_container)` — on a match adopt (`attach`), otherwise
   `add_candidate(parent_container)` and leave the parent unchanged;
4. current parent `None`: bind `__parent` unconditionally; when the new
   parent is a `Container` instance also append to its children and
   propagate the dirty flag. -/
def parent_set (fuel : Nat) (s : State) (x : Nat) (p : ParentRef) :
    Option (Except String State) :=
  if (s.nodes x).parent = p then some (Except.ok s)
  else
    match (s.nodes x).parent with
    | ParentRef.node _ => some (Except.error reparent_msg)
    | ParentRef.proxy pid =>
        match p with
        | ParentRef.null => some (Except.error none_over_proxy_msg)
        | ParentRef.node j =>
            if (s.proxies pid).matches p then
              (attach fuel s x j).map Except.ok
            else
              some (Except.ok (updProxy s pid
                ((s.proxies pid).add_candidate p)))
        | ParentRef.proxy _ =>
            if (s.proxies pid).matches p then
              some (Except.error proxy_children_msg)
            else
              some (Except.ok (updProxy s pid
                ((s.proxies pid).add_candidate p)))
    | ParentRef.null =>
        match p with
        | ParentRef.node j =>
            if (s.nodes j).isCont then (attach fuel s x j).map Except.ok
            else some (Except.ok (setParentField s x p))
        | _ => some (Except.ok (setParentField s x p))

/-! ## Generated field setters -/

/-- The `setter` closure produced by `AbstractContainer._setter`
(container.py lines 37-43): `None` is a silent no-op; a name already in
`self.fields` raises `AttributeError`; otherwise the value is stored. -/
def setter {V : Type} (fields : List (String × V)) (name : String)
    (val : Option V) : Except String (List (String × V)) :=
  match val with
  | none => Except.ok fields
  | some v =>
      if (fields.lookup name).isSome then
        Except.error ("cannot set attribute " ++ name ++ " -- already set")
      else
        Except.ok (fields ++ [(name, v)])

/-- `isinstance(v.parent, Container)` for the node `v`. -/
def isContParent (s : State) (v : Nat) : Bool :=
  match (s.nodes v).parent with
  | ParentRef.node j => (s.nodes j).isCont
  | _ => false

/-- The `for v in val:` loop of the child-designated `container_setter`
(container.py lines 273-275): each element whose `parent` is not a
`Container` instance is assigned `self` as parent through the parent
setter. -/
def parentElems (fuel : Nat) : State → Nat → List Nat →
    Option (Except String State)
  | s, _, [] => some (Except.ok s)
  | s, selfId, v :: rest =>
      if isContParent s v then parentElems fuel s selfId rest
      else
        match parent_set fuel s v (ParentRef.node selfId) with
        | none => none
        | some (Except.error m) => some (Except.error m)
        | some (Except.ok s') => parentElems fuel s' selfId rest

/-- The element list produced by the normalization in
`Container._setter`'s child branch (container.py lines 266-272): a tuple or
list is used as-is, a dict contributes `val.values()`, a bare value becomes
`[val]`.  A Python `set` also falls into the bare-value branch (it is not a
`tuple`/`list`/`dict`), which the setter then crashes on — see
`child_setter`. -/
def elemsOf : CVal → List Nat
  | CVal.single i => [i]
  | CVal.seq is => is
  | CVal.dict kvs => kvs.map Prod.snd
  | CVal.setv _ => []

/-- The `container_setter` closure produced by `Container._setter` for a
field configured with `child=True` and no `required_name`
(container.py lines 264-279): first the base write-once setter runs
(`ret[idx2](self, val)`); if the value is not `None` it is normalized
(tuple/list as-is, dict → `values()`, otherwise wrapped as `[val]`) and
each element not already owned by a `Container` gets `self` assigned as
parent.  A Python `set` is wrapped as `[the_set]`, after which
`v.parent` on the set object raises `AttributeError`. -/
def child_setter (fuel : Nat) (s : State) (selfId : Nat) (fname : String)
    (val : Option CVal) : Option (Except String State) :=
  match setter (s.nodes selfId).fieldVals fname val with
  | Except.error msg => some (Except.error msg)
  | Except.ok fv =>
      let s1 := setFields s selfId fv
      match val with
      | none => some (Except.ok s1)
      | some (CVal.setv _) =>
          some (Except.error "set object has no attribute parent")
      | some v => parentElems fuel s1 selfId (elemsOf v)

/-! ## `get_ancestor` (container.py lines 127-140) -/

/-- The `while p is not None` loop of `get_ancestor`, walking `parent`
links.  Fuel bounds the walk (`none` = the walk did not finish: in the
source, a parent cycle loops forever, and a `Proxy` link raises
`AttributeError`, since a `Proxy` has no `data_type`); `some
ParentRef.null` is the `return None` fall-through; `some (ParentRef.node
i)` is a found ancestor. -/
def get_ancestor_loop (s : State) (dt : String) :
    Nat → ParentRef → Option ParentRef
  | 0, _ => none
  | _+1, ParentRef.null => some ParentRef.null
  | _+1, ParentRef.proxy _ => none
  | fuel+1, ParentRef.node i =>
      if (s.nodes i).dataType = dt then some (ParentRef.node i)
      else get_ancestor_loop s dt fuel (s.nodes i).parent

/-- `AbstractContainer.get_ancestor`: with `data_type=None` return
`self.parent` directly; otherwise run the upward walk. -/
def get_ancestor (fuel : Nat) (s : State) (x : Nat) (dt : Option String) :
    Option ParentRef :=
  match dt with
  | none => some (s.nodes x).parent
  | some t => get_ancestor_loop s t fuel (s.nodes x).parent

/-- The chain of concrete ancestors of a starting `parent` reference,
ending when `None` is reached; `none` if a `Proxy` link or a cycle keeps
the source's loop from completing within the fuel. -/
def ancestorChain (s : State) : Nat → ParentRef → Option (List Nat)
  | 0, _ => none
  | _+1, ParentRef.null => some []
  | _+1, ParentRef.proxy _ => none
  | fuel+1, ParentRef.node i =>
      (ancestorChain s fuel (s.nodes i).parent).map (fun l => i :: l)

/-! ## `__gather_fields` (container.py lines 61-100) -/

/-- An entry of a `__fields__` tuple: a bare name or a dict whose `name`
key may be missing (other descriptor keys play no role in the merge). -/
inductive FieldSpec where
  | bare (n : String)
  | desc (n : Option String)
deriving DecidableEq, Repr

/-- `AbstractContainer._check_field_spec` (lines 61-73): a non-dict entry
is normalized to `{name: entry}`; a dict without `name` raises
`ValueError`.  The result is the `name` of the normalized descriptor
(`pconf['name']`, the only part the merge consumes). -/
def check_field_spec : FieldSpec → Except String String
  | FieldSpec.bare n => Except.ok n
  | FieldSpec.desc (some n) => Except.ok n
  | FieldSpec.desc none =>
      Except.error "must specify name if using dict in __fields__"

/-- The `for f in getattr(cls, cls._fieldsname)` loop of
`__gather_fields`: check every spec, collect the names, propagating the
first `ValueError`. -/
def gather_loop : List FieldSpec → Except String (List String)
  | [] => Except.ok []
  | f :: fs =>
      match check_field_spec f with
      | Except.error m => Except.error m
      | Except.ok n =>
          match gather_loop fs with
          | Except.error m => Except.error m
          | Except.ok ns => Except.ok (n :: ns)

/-- `AbstractContainer.__gather_fields` (lines 75-100) for a class whose
own declared tuple is `own`.  `baseMerge` is the guard of line 86: the
last base is a `Container` subclass whose resolved `__fields__` tuple
(`ancestor`) is a different object; when the guard holds the ancestor's
resolved names are spliced in front (`new_fields[0:0] = ...`) before the
normalization loop runs. -/
def gather_fields (baseMerge : Bool) (ancestor : List String)
    (own : List FieldSpec) : Except String (List String) :=
  gather_loop (if baseMerge then ancestor.map FieldSpec.bare ++ own else own)

/-! ## Construction (`__new__`, container.py lines 102-110) -/

/-- `AbstractContainer.__new__`: the instance starts with `__parent =
None`, empty `__children`, `__modified = True`, empty `__field_values`,
then `inst.parent = kwargs.pop('parent', None)` runs the parent setter. -/
def newContainer (fuel : Nat) (s : State) (i : Nat) (nm dt : String)
    (isCont : Bool) (p : ParentRef) : Option (Except String State) :=
  let s1 := updNode s i
    { name := nm, isCont := isCont, dataType := dt,
      parent := ParentRef.null, children := [], modified := true,
      fieldVals := [] }
  parent_set fuel s1 i p

/-! ## Frame lemmas for `set_modified` -/

/-- Two states agree on everything except possibly the `modified` flags:
the shape of the tree (parents, children, class, type tag, names, field
values) and all proxies coincide. -/
structure SameSkel (s s' : State) : Prop where
  parent : ∀ k, (s'.nodes k).parent = (s.nodes k).parent
  children : ∀ k, (s'.nodes k).children = (s.nodes k).children
  isCont : ∀ k, (s'.nodes k).isCont = (s.nodes k).isCont
  dataType : ∀ k, (s'.nodes k).dataType = (s.nodes k).dataType
  nm : ∀ k, (s'.nodes k).name = (s.nodes k).name
  fieldVals : ∀ k, (s'.nodes k).fieldVals = (s.nodes k).fieldVals
  proxies : s'.proxies = s.proxies

/-- The chain of nodes whose `modified` flag a `set_modified(True)` call
starting at `i` will write: `i` itself, then the parent for as long as the
parent is a `Container` instance.  `none` when the climb does not finish
within the fuel (a parent cycle). -/
def propagChain (s : State) : Nat → Nat → Option (List Nat)
  | 0, _ => none
  | fuel+1, i =>
      match (s.nodes i).parent with
      | ParentRef.node j =>
          if (s.nodes j).isCont then
            (propagChain s fuel j).map (fun l => i :: l)
          else some [i]
      | _ => some [i]

/-- What any successful parent assignment can change: `x`'s parent slot,
children lists (append only), dirty flags (to `true` only), and proxy
candidate queues.  Everything else — classes, field values, other
parents, proxy match predicates — is untouched. -/
def ParentSetFrame (s s' : State) (x : Nat) : Prop :=
  (∀ k, (s'.nodes k).isCont = (s.nodes k).isCont ∧
        (s'.nodes k).fieldVals = (s.nodes k).fieldVals) ∧
  (∀ k, k ≠ x → (s'.nodes k).parent = (s.nodes k).parent) ∧
  (∀ k e, e ∈ (s.nodes k).children → e ∈ (s'.nodes k).children) ∧
  (∀ k, (s.nodes k).modified = true → (s'.nodes k).modified = true) ∧
  (∀ q, (s'.proxies q).matchSet = (s.proxies q).matchSet)

/-- What a run of the child-registration loop with target `a` can do to
the state, summarized for the frame conditions the per-element
postconditions need. -/
def ElemsFrame (s s' : State) (a : Nat) : Prop :=
  (∀ k, (s'.nodes k).isCont = (s.nodes k).isCont ∧
        (s'.nodes k).fieldVals = (s.nodes k).fieldVals) ∧
  (∀ k e, e ∈ (s.nodes k).children → e ∈ (s'.nodes k).children) ∧
  (∀ k, (s.nodes k).modified = true → (s'.nodes k).modified = true) ∧
  (∀ q, (s'.proxies q).matchSet = (s.proxies q).matchSet) ∧
  (∀ k, isContParent s k = true →
     (s'.nodes k).parent = (s.nodes k).parent) ∧
  (∀ k pid, (s.nodes k).parent = ParentRef.proxy pid →
     (s.proxies pid).matches (ParentRef.node a) = false →
     (s'.nodes k).parent = ParentRef.proxy pid)

/-- Per-element postcondition of the child-registration loop with target
`a`, stated against the pre-state `s` and the post-state `s'`:
an unowned element is adopted by `a`; an element already owned by a
`Container` keeps its owner; a proxy-parented element is adopted exactly
when the proxy matches `a`, and otherwise keeps the proxy parent. -/
def ElemPost (s s' : State) (a e : Nat) : Prop :=
  ((s.nodes e).parent = ParentRef.null →
     (s'.nodes e).parent = ParentRef.node a ∧
     e ∈ (s'.nodes a).children ∧ (s'.nodes a).modified = true) ∧
  (∀ j, (s.nodes e).parent = ParentRef.node j → (s.nodes j).isCont = true →
     (s'.nodes e).parent = ParentRef.node j) ∧
  (∀ pid, (s.nodes e).parent = ParentRef.proxy pid →
     ((s.proxies pid).matches (ParentRef.node a) = true →
        (s'.nodes e).parent = ParentRef.node a ∧
        e ∈ (s'.nodes a).children ∧ (s'.nodes a).modified = true) ∧
     ((s.proxies pid).matches (ParentRef.node a) = false →
        (s'.nodes e).parent = ParentRef.proxy pid))

/-! ## Lemmas about `__gather_fields` and `get_ancestor` -/

/-- The name `_check_field_spec` extracts from a well-formed entry. -/
def specName : FieldSpec → String
  | FieldSpec.bare n => n
  | FieldSpec.desc (some n) => n
  | FieldSpec.desc none => ""

/-! ## Concrete test states -/

/-- Default test node: a `Container` instance with no parent, no children,
clean dirty flag, no field values. -/
def defNode : Node :=
  { name := "n", isCont := true, dataType := "T", parent := ParentRef.null,
    children := [], modified := false, fieldVals := [] }

def defProxy : Proxy := { matchSet := [], candidates := [] }

/-- Extract the state of a normal return, with a fallback default. -/
def okOr (d : State) : Option (Except String State) → State
  | some (Except.ok s) => s
  | _ => d

/-- Extract a terminating result, with a fallback default. -/
def someOr (d : State) : Option State → State
  | some s => s
  | none => d

def w2S : State :=
  { nodes := fun i =>
      if i = 1 then { defNode with parent := ParentRef.proxy 0 }
      else defNode,
    proxies := fun _ => { matchSet := [ParentRef.node 0], candidates := [] } }

def w3S : State :=
  { nodes := fun i =>
      if i = 1 then { defNode with parent := ParentRef.node 0 }
      else defNode,
    proxies := fun _ => defProxy }

def c5S0 : State :=
  { nodes := fun i =>
      if i = 1 then { defNode with isCont := false } else defNode,
    proxies := fun _ => defProxy }

/-- Build, through the public operations only, a chain
`root(0) ← mid(1) ← leaf(2)` in which `mid` is a plain (non-`Container`)
`AbstractContainer` — e.g. a `Data` instance — and then reset every dirty
flag to `False`. -/
def buildC5 : Option State :=
  match parent_set 4 c5S0 1 (ParentRef.node 0) with
  | some (Except.ok s) =>
      match parent_set 4 s 2 (ParentRef.node 1) with
      | some (Except.ok s) =>
          match set_modified 4 s 0 false with
          | some s =>
              match set_modified 4 s 1 false with
              | some s => set_modified 4 s 2 false
              | none => none
          | none => none
      | _ => none
  | _ => none

def c5S : State := someOr c5S0 buildC5

def c5T : State := someOr c5S0 (set_modified 4 c5S 2 true)

def w5S : State :=
  { nodes := fun i =>
      if i = 1 then { defNode with parent := ParentRef.node 0 }
      else if i = 2 then { defNode with parent := ParentRef.node 1 }
      else defNode,
    proxies := fun _ => defProxy }

def c6S : State :=
  { nodes := fun i =>
      if i = 1 then { defNode with parent := ParentRef.proxy 0 }
      else defNode,
    proxies := fun _ => defProxy }

def c6S' : State :=
  okOr c6S (child_setter 4 c6S 0 "f" (some (CVal.single 1)))

def w6S : State :=
  { nodes := fun _ => defNode, proxies := fun _ => defProxy }

def w6S' : State :=
  okOr w6S (child_setter 4 w6S 0 "f" (some (CVal.single 1)))

def w8S : State :=
  { nodes := fun i =>
      if i = 3 then
        { defNode with parent := ParentRef.node 2, dataType := "X" }
      else if i = 2 then
        { defNode with parent := ParentRef.node 1, dataType := "A" }
      else if i = 1 then
        { defNode with parent := ParentRef.node 0, dataType := "B" }
      else { defNode with dataType := "A" },
    proxies := fun _ => defProxy }

def wBase : State :=
  { nodes := fun _ => defNode, proxies := fun _ => defProxy }

def w9S' : State :=
  okOr wBase (newContainer 3 wBase 5 "nm" "T" true ParentRef.null)

/-! ## Theorems -/

@[simp] theorem updNode_nodes_same (s : State) (i : Nat) (n : Node) :
    (updNode s i n).nodes i = n := by
  simp [updNode]

theorem updNode_nodes_other (s : State) (i : Nat) (n : Node) (k : Nat)
    (h : k ≠ i) : (updNode s i n).nodes k = s.nodes k := by
  simp [updNode, h]

@[simp] theorem updNode_proxies (s : State) (i : Nat) (n : Node) :
    (updNode s i n).proxies = s.proxies := rfl

@[simp] theorem updProxy_nodes (s : State) (p : Nat) (pr : Proxy) :
    (updProxy s p pr).nodes = s.nodes := rfl

@[simp] theorem updProxy_proxies_same (s : State) (p : Nat) (pr : Proxy) :
    (updProxy s p pr).proxies p = pr := by
  simp [updProxy]

theorem updProxy_proxies_other (s : State) (p : Nat) (pr : Proxy) (k : Nat)
    (h : k ≠ p) : (updProxy s p pr).proxies k = s.proxies k := by
  simp [updProxy, h]

theorem markModified_nodes (s : State) (i : Nat) (m : Bool) (k : Nat) :
    (markModified s i m).nodes k =
      (if k = i then { s.nodes i with modified := m } else s.nodes k) := by
  by_cases h : k = i <;> simp [markModified, updNode, h]

theorem setParentField_nodes (s : State) (x : Nat) (p : ParentRef) (k : Nat) :
    (setParentField s x p).nodes k =
      (if k = x then { s.nodes x with parent := p } else s.nodes k) := by
  by_cases h : k = x <;> simp [setParentField, updNode, h]

theorem appendChild_nodes (s : State) (j x : Nat) (k : Nat) :
    (appendChild s j x).nodes k =
      (if k = j then { s.nodes j with children := (s.nodes j).children ++ [x] }
       else s.nodes k) := by
  by_cases h : k = j <;> simp [appendChild, updNode, h]

theorem setFields_nodes (s : State) (i : Nat) (fv : List (String × CVal))
    (k : Nat) :
    (setFields s i fv).nodes k =
      (if k = i then { s.nodes i with fieldVals := fv } else s.nodes k) := by
  by_cases h : k = i <;> simp [setFields, updNode, h]

@[simp] theorem markModified_proxies (s : State) (i : Nat) (m : Bool) :
    (markModified s i m).proxies = s.proxies := rfl

@[simp] theorem setParentField_proxies (s : State) (x : Nat) (p : ParentRef) :
    (setParentField s x p).proxies = s.proxies := rfl

@[simp] theorem appendChild_proxies (s : State) (j x : Nat) :
    (appendChild s j x).proxies = s.proxies := rfl

@[simp] theorem setFields_proxies (s : State) (i : Nat)
    (fv : List (String × CVal)) : (setFields s i fv).proxies = s.proxies := rfl

theorem SameSkel.refl (s : State) : SameSkel s s :=
  ⟨fun _ => rfl, fun _ => rfl, fun _ => rfl, fun _ => rfl, fun _ => rfl,
   fun _ => rfl, rfl⟩

theorem SameSkel.trans {s t u : State} (h1 : SameSkel s t)
    (h2 : SameSkel t u) : SameSkel s u :=
  ⟨fun k => (h2.parent k).trans (h1.parent k),
   fun k => (h2.children k).trans (h1.children k),
   fun k => (h2.isCont k).trans (h1.isCont k),
   fun k => (h2.dataType k).trans (h1.dataType k),
   fun k => (h2.nm k).trans (h1.nm k),
   fun k => (h2.fieldVals k).trans (h1.fieldVals k),
   h2.proxies.trans h1.proxies⟩

theorem SameSkel.markModified (s : State) (i : Nat) (m : Bool) :
    SameSkel s (markModified s i m) := by
  refine ⟨?_, ?_, ?_, ?_, ?_, ?_, rfl⟩ <;>
    intro k <;> rw [markModified_nodes] <;> by_cases h : k = i <;> simp [h]

/-- `set_modified` only writes `modified` flags: tree shape and proxies
are untouched. -/
theorem set_modified_skel : ∀ (fuel : Nat) (s : State) (i : Nat) (m : Bool)
    (s' : State), set_modified fuel s i m = some s' → SameSkel s s'
  | 0, _, _, _, _, h => by simp [set_modified] at h
  | fuel+1, s, i, m, s', h => by
      have hskel := SameSkel.markModified s i m
      simp only [set_modified] at h
      split at h
      · split at h
        · split at h
          · exact hskel.trans (set_modified_skel fuel _ _ _ _ h)
          · exact (Option.some.inj h) ▸ hskel
        · exact (Option.some.inj h) ▸ hskel
      · exact (Option.some.inj h) ▸ hskel

/-- Setting the flag `true` never clears a flag elsewhere, and does set
the flag of the target node. -/
theorem set_modified_mono : ∀ (fuel : Nat) (s : State) (i : Nat)
    (s' : State), set_modified fuel s i true = some s' →
    (∀ k, (s.nodes k).modified = true → (s'.nodes k).modified = true) ∧
    (s'.nodes i).modified = true
  | 0, _, _, _, h => by simp [set_modified] at h
  | fuel+1, s, i, s', h => by
      simp only [set_modified, if_true] at h
      have hup : ∀ k, (s.nodes k).modified = true →
          ((markModified s i true).nodes k).modified = true := by
        intro k hk
        rw [markModified_nodes]
        by_cases hki : k = i <;> simp [hki, hk]
      have hupi : ((markModified s i true).nodes i).modified = true := by
        rw [markModified_nodes]; simp
      split at h
      · split at h
        · have ih := set_modified_mono fuel _ _ _ h
          exact ⟨fun k hk => ih.1 k (hup k hk), ih.1 i hupi⟩
        · cases Option.some.inj h
          exact ⟨hup, hupi⟩
      · cases Option.some.inj h
        exact ⟨hup, hupi⟩

/-- `propagChain` only reads parents and `isCont` bits, so it is invariant
under flag-only updates. -/
theorem propagChain_skel {s s' : State} (hs : SameSkel s s') :
    ∀ (fuel : Nat) (i : Nat), propagChain s' fuel i = propagChain s fuel i
  | 0, _ => rfl
  | fuel+1, i => by
      simp only [propagChain, hs.parent i]
      cases hp : (s.nodes i).parent with
      | node j =>
          simp only [hs.isCont j]
          cases hc : (s.nodes j).isCont <;>
            simp [propagChain_skel hs fuel j]
      | null => rfl
      | proxy q => rfl

/-- Unfolding equation: one `set_modified(True)` step that recurses into a
`Container` parent. -/
theorem set_modified_true_node_cont (fuel : Nat) (s : State) (i j : Nat)
    (hp : (s.nodes i).parent = ParentRef.node j)
    (hc : (s.nodes j).isCont = true) :
    set_modified (fuel+1) s i true =
      set_modified fuel (markModified s i true) j true := by
  have hski : ((markModified s i true).nodes j).isCont = true :=
    ((SameSkel.markModified s i true).isCont j).trans hc
  simp only [set_modified, hp, if_true, hski]

/-- Unfolding equation: one `set_modified(True)` step that stops (parent
is absent, a proxy, or not a `Container` instance). -/
theorem set_modified_true_stop (fuel : Nat) (s : State) (i : Nat)
    (hstop : ∀ j, (s.nodes i).parent = ParentRef.node j →
      (s.nodes j).isCont = false) :
    set_modified (fuel+1) s i true = some (markModified s i true) := by
  cases hp : (s.nodes i).parent with
  | node j =>
      have hski : ((markModified s i true).nodes j).isCont = false :=
        ((SameSkel.markModified s i true).isCont j).trans (hstop j hp)
      simp only [set_modified, hp, if_true, hski]
      simp
  | null => simp [set_modified, hp]
  | proxy q => simp [set_modified, hp]

/-- Unfolding equation: `set_modified(False)` only writes the target's own
flag. -/
theorem set_modified_false_eq (fuel : Nat) (s : State) (i : Nat) :
    set_modified (fuel+1) s i false = some (markModified s i false) := by
  simp [set_modified]

theorem markModified_true_flags (s : State) (i : Nat) : ∀ k,
    ((markModified s i true).nodes k).modified =
      (if k ∈ [i] then true else (s.nodes k).modified) := by
  intro k
  rw [markModified_nodes]
  by_cases hki : k = i <;> simp [hki]

/-- Characterization of `set_modified(True)`: when the climb terminates
(`propagChain` returns `some l`), the call succeeds and sets exactly the
flags of the nodes in `l` to `True`, leaving every other flag unchanged. -/
theorem set_modified_true_chain : ∀ (fuel : Nat) (s : State) (i : Nat)
    (l : List Nat), propagChain s fuel i = some l →
    ∃ s', set_modified fuel s i true = some s' ∧
      ∀ k, (s'.nodes k).modified =
        (if k ∈ l then true else (s.nodes k).modified)
  | 0, _, _, _, h => by simp [propagChain] at h
  | fuel+1, s, i, l, h => by
      have hskel := SameSkel.markModified s i true
      cases hp : (s.nodes i).parent with
      | node j =>
          by_cases hc : (s.nodes j).isCont = true
          · have hrec := set_modified_true_node_cont fuel s i j hp hc
            simp only [propagChain, hp, if_pos hc] at h
            cases hpc : propagChain s fuel j with
            | none => rw [hpc] at h; simp at h
            | some l' =>
                rw [hpc] at h
                simp only [Option.map_some'] at h
                cases h
                have hpc1 : propagChain (markModified s i true) fuel j
                    = some l' := by
                  rw [propagChain_skel hskel fuel j]; exact hpc
                obtain ⟨s', hsm, hfl⟩ :=
                  set_modified_true_chain fuel _ j l' hpc1
                refine ⟨s', by rw [hrec]; exact hsm, ?_⟩
                intro k
                rw [hfl k, markModified_true_flags s i k]
                by_cases hkl : k ∈ l'
                · simp [hkl]
                · by_cases hki : k = i <;> simp [hkl, hki]
          · have hcf : (s.nodes j).isCont = false :=
              Bool.not_eq_true _ ▸ hc
            have hstop : ∀ j', (s.nodes i).parent = ParentRef.node j' →
                (s.nodes j').isCont = false := by
              intro j' hj'
              rw [hp] at hj'
              cases hj'
              exact hcf
            have heq := set_modified_true_stop fuel s i hstop
            simp only [propagChain, hp, hcf] at h
            simp at h
            cases h
            exact ⟨_, heq, markModified_true_flags s i⟩
      | null =>
          have hstop : ∀ j', (s.nodes i).parent = ParentRef.node j' →
              (s.nodes j').isCont = false := by
            intro j' hj'; rw [hp] at hj'; cases hj'
          have heq := set_modified_true_stop fuel s i hstop
          simp only [propagChain, hp] at h
          cases h
          exact ⟨_, heq, markModified_true_flags s i⟩
      | proxy q =>
          have hstop : ∀ j', (s.nodes i).parent = ParentRef.node j' →
              (s.nodes j').isCont = false := by
            intro j' hj'; rw [hp] at hj'; cases hj'
          have heq := set_modified_true_stop fuel s i hstop
          simp only [propagChain, hp] at h
          cases h
          exact ⟨_, heq, markModified_true_flags s i⟩

/-! ## Lemmas about `attach` and the parent setter -/

theorem setParentField_keep (s : State) (x : Nat) (p : ParentRef) (k : Nat) :
    ((setParentField s x p).nodes k).isCont = (s.nodes k).isCont ∧
    ((setParentField s x p).nodes k).dataType = (s.nodes k).dataType ∧
    ((setParentField s x p).nodes k).name = (s.nodes k).name ∧
    ((setParentField s x p).nodes k).fieldVals = (s.nodes k).fieldVals ∧
    ((setParentField s x p).nodes k).modified = (s.nodes k).modified ∧
    ((setParentField s x p).nodes k).children = (s.nodes k).children := by
  rw [setParentField_nodes]; by_cases h : k = x <;> simp [h]

theorem setParentField_parent_other (s : State) (x : Nat) (p : ParentRef)
    (k : Nat) (h : k ≠ x) :
    ((setParentField s x p).nodes k).parent = (s.nodes k).parent := by
  rw [setParentField_nodes]; simp [h]

theorem setParentField_parent_self (s : State) (x : Nat) (p : ParentRef) :
    ((setParentField s x p).nodes x).parent = p := by
  rw [setParentField_nodes]; simp

theorem appendChild_keep (s : State) (j x : Nat) (k : Nat) :
    ((appendChild s j x).nodes k).isCont = (s.nodes k).isCont ∧
    ((appendChild s j x).nodes k).dataType = (s.nodes k).dataType ∧
    ((appendChild s j x).nodes k).name = (s.nodes k).name ∧
    ((appendChild s j x).nodes k).fieldVals = (s.nodes k).fieldVals ∧
    ((appendChild s j x).nodes k).modified = (s.nodes k).modified ∧
    ((appendChild s j x).nodes k).parent = (s.nodes k).parent := by
  rw [appendChild_nodes]; by_cases h : k = j <;> simp [h]

theorem appendChild_children (s : State) (j x : Nat) (k : Nat) :
    ((appendChild s j x).nodes k).children =
      (if k = j then (s.nodes j).children ++ [x]
       else (s.nodes k).children) := by
  rw [appendChild_nodes]; by_cases h : k = j <;> simp [h]

/-- A successful adoption leaves `x` with parent `j`, `x` registered among
`j`'s children, and `j`'s dirty flag set. -/
theorem attach_spec (fuel : Nat) (s : State) (x j : Nat) (s' : State)
    (h : attach fuel s x j = some s') :
    (s'.nodes x).parent = ParentRef.node j ∧
    x ∈ (s'.nodes j).children ∧
    (s'.nodes j).modified = true := by
  have hskel := set_modified_skel fuel _ j true s' h
  have hmono := set_modified_mono fuel _ j s' h
  refine ⟨?_, ?_, hmono.2⟩
  · rw [hskel.parent x,
      (appendChild_keep (setParentField s x (ParentRef.node j)) j x x).2.2.2.2.2]
    exact setParentField_parent_self s x (ParentRef.node j)
  · rw [hskel.children j, appendChild_children]
    simp

/-- Everything a successful adoption can change: `x`'s parent, `j`'s
children (append only), and dirty flags (set to `true` only).  All other
node attributes and all proxies are untouched. -/
theorem attach_frame (fuel : Nat) (s : State) (x j : Nat) (s' : State)
    (h : attach fuel s x j = some s') :
    (∀ k, (s'.nodes k).isCont = (s.nodes k).isCont ∧
          (s'.nodes k).dataType = (s.nodes k).dataType ∧
          (s'.nodes k).name = (s.nodes k).name ∧
          (s'.nodes k).fieldVals = (s.nodes k).fieldVals) ∧
    (∀ k, k ≠ x → (s'.nodes k).parent = (s.nodes k).parent) ∧
    (∀ k e, e ∈ (s.nodes k).children → e ∈ (s'.nodes k).children) ∧
    (∀ k, (s.nodes k).modified = true → (s'.nodes k).modified = true) ∧
    s'.proxies = s.proxies := by
  have hskel := set_modified_skel fuel _ j true s' h
  have hmono := set_modified_mono fuel _ j s' h
  have hkeep := fun k =>
    appendChild_keep (setParentField s x (ParentRef.node j)) j x k
  have hspf := fun k => setParentField_keep s x (ParentRef.node j) k
  refine ⟨?_, ?_, ?_, ?_, ?_⟩
  · intro k
    exact ⟨(hskel.isCont k).trans ((hkeep k).1.trans (hspf k).1),
      (hskel.dataType k).trans ((hkeep k).2.1.trans (hspf k).2.1),
      (hskel.nm k).trans ((hkeep k).2.2.1.trans (hspf k).2.2.1),
      (hskel.fieldVals k).trans ((hkeep k).2.2.2.1.trans (hspf k).2.2.2.1)⟩
  · intro k hk
    rw [hskel.parent k, (hkeep k).2.2.2.2.2]
    exact setParentField_parent_other s x (ParentRef.node j) k hk
  · intro k e he
    rw [hskel.children k, appendChild_children]
    by_cases hkj : k = j
    · subst hkj
      rw [(hspf k).2.2.2.2.2] at *
      simp only [if_pos rfl]
      exact List.mem_append_left _ ((hspf k).2.2.2.2.2 ▸ he)
    · rw [if_neg hkj, (hspf k).2.2.2.2.2]
      exact he
  · intro k hk
    exact hmono.1 k (((hkeep k).2.2.2.2.1.trans (hspf k).2.2.2.2.1).trans hk)
  · exact hskel.proxies

theorem map_ok_inj {o : Option State} {s' : State}
    (h : o.map (Except.ok : State → Except String State)
          = some (Except.ok s')) : o = some s' := by
  cases o <;> simp_all

/-- Case equation: assigning the identical current parent is a no-op. -/
theorem parent_set_identity (fuel : Nat) (s : State) (x : Nat) :
    parent_set fuel s x ((s.nodes x).parent) = some (Except.ok s) := by
  simp [parent_set]

/-- Case equation: a concrete parent can never be replaced. -/
theorem parent_set_concrete_err (fuel : Nat) (s : State) (x c : Nat)
    (p : ParentRef) (h : (s.nodes x).parent = ParentRef.node c)
    (hne : p ≠ ParentRef.node c) :
    parent_set fuel s x p = some (Except.error reparent_msg) := by
  have hg : ¬ ParentRef.node c = p := fun he => hne he.symm
  simp [parent_set, h, hg]

/-- Case equation: `None` cannot overwrite a pending proxy parent. -/
theorem parent_set_proxy_none (fuel : Nat) (s : State) (x pid : Nat)
    (h : (s.nodes x).parent = ParentRef.proxy pid) :
    parent_set fuel s x ParentRef.null =
      some (Except.error none_over_proxy_msg) := by
  simp [parent_set, h]

/-- Case equation: a matching concrete offer resolves the proxy. -/
theorem parent_set_proxy_match (fuel : Nat) (s : State) (x pid j : Nat)
    (h : (s.nodes x).parent = ParentRef.proxy pid)
    (hm : (s.proxies pid).matches (ParentRef.node j) = true) :
    parent_set fuel s x (ParentRef.node j) =
      (attach fuel s x j).map Except.ok := by
  simp [parent_set, h, hm]

/-- Case equation: a non-matching concrete offer is queued as candidate. -/
theorem parent_set_proxy_nomatch (fuel : Nat) (s : State) (x pid j : Nat)
    (h : (s.nodes x).parent = ParentRef.proxy pid)
    (hm : (s.proxies pid).matches (ParentRef.node j) = false) :
    parent_set fuel s x (ParentRef.node j) =
      some (Except.ok (updProxy s pid
        ((s.proxies pid).add_candidate (ParentRef.node j)))) := by
  simp [parent_set, h, hm]

/-- Case equation: first assignment of a `Container` parent adopts. -/
theorem parent_set_null_cont (fuel : Nat) (s : State) (x j : Nat)
    (h : (s.nodes x).parent = ParentRef.null)
    (hc : (s.nodes j).isCont = true) :
    parent_set fuel s x (ParentRef.node j) =
      (attach fuel s x j).map Except.ok := by
  simp [parent_set, h, hc]

/-- Case equation: first assignment of a non-`Container` concrete parent
only binds the slot (no child registration, no dirty propagation). -/
theorem parent_set_null_noncont (fuel : Nat) (s : State) (x j : Nat)
    (h : (s.nodes x).parent = ParentRef.null)
    (hc : (s.nodes j).isCont = false) :
    parent_set fuel s x (ParentRef.node j) =
      some (Except.ok (setParentField s x (ParentRef.node j))) := by
  simp [parent_set, h, hc]

/-- Case equation: first assignment of a proxy parent only binds the
slot. -/
theorem parent_set_null_proxy (fuel : Nat) (s : State) (x q : Nat)
    (h : (s.nodes x).parent = ParentRef.null) :
    parent_set fuel s x (ParentRef.proxy q) =
      some (Except.ok (setParentField s x (ParentRef.proxy q))) := by
  simp [parent_set, h]

theorem ParentSetFrame.ofUnchanged (s : State) (x : Nat) : ParentSetFrame s s x :=
  ⟨fun _ => ⟨rfl, rfl⟩, fun _ _ => rfl, fun _ _ he => he, fun _ hk => hk,
   fun _ => rfl⟩

theorem ParentSetFrame.ofAttach (fuel : Nat) (s : State) (x j : Nat)
    (s' : State) (h : attach fuel s x j = some s') :
    ParentSetFrame s s' x := by
  obtain ⟨hattr, hpar, hch, hmod, hprox⟩ := attach_frame fuel s x j s' h
  exact ⟨fun k => ⟨(hattr k).1, (hattr k).2.2.2⟩, hpar, hch, hmod,
    fun q => by rw [hprox]⟩

theorem ParentSetFrame.ofSetParent (s : State) (x : Nat) (p : ParentRef) :
    ParentSetFrame s (setParentField s x p) x := by
  refine ⟨fun k => ⟨(setParentField_keep s x p k).1,
      (setParentField_keep s x p k).2.2.2.1⟩,
    fun k hk => setParentField_parent_other s x p k hk,
    fun k e he => ?_, fun k hk => ?_, fun q => rfl⟩
  · rw [(setParentField_keep s x p k).2.2.2.2.2]; exact he
  · rw [(setParentField_keep s x p k).2.2.2.2.1]; exact hk

theorem ParentSetFrame.ofUpdProxy (s : State) (x pid : Nat) (c : ParentRef) :
    ParentSetFrame s (updProxy s pid ((s.proxies pid).add_candidate c)) x := by
  refine ⟨fun k => ⟨rfl, rfl⟩, fun k _ => rfl, fun k e he => he,
    fun k hk => hk, fun q => ?_⟩
  by_cases hq : q = pid
  · subst hq
    rw [updProxy_proxies_same]
    simp [Proxy.add_candidate]
  · rw [updProxy_proxies_other s pid _ q hq]

/-- Any `parent_set` call that returns normally satisfies the frame. -/
theorem parent_set_frame (fuel : Nat) (s : State) (x : Nat) (p : ParentRef)
    (s' : State) (h : parent_set fuel s x p = some (Except.ok s')) :
    ParentSetFrame s s' x := by
  simp only [parent_set] at h
  split at h
  · injection h with h1
    injection h1 with h2
    exact h2 ▸ ParentSetFrame.ofUnchanged s x
  · split at h
    · simp at h
    · split at h
      · simp at h
      · split at h
        · exact ParentSetFrame.ofAttach fuel s x _ s' (map_ok_inj h)
        · injection h with h1
          injection h1 with h2
          exact h2 ▸ ParentSetFrame.ofUpdProxy s x _ _
      · split at h
        · simp at h
        · injection h with h1
          injection h1 with h2
          exact h2 ▸ ParentSetFrame.ofUpdProxy s x _ _
    · split at h
      · split at h
        · exact ParentSetFrame.ofAttach fuel s x _ s' (map_ok_inj h)
        · injection h with h1
          injection h1 with h2
          exact h2 ▸ ParentSetFrame.ofSetParent s x _
      · injection h with h1
        injection h1 with h2
        exact h2 ▸ ParentSetFrame.ofSetParent s x _

/-! ## Lemmas about the child-field element loop -/

theorem isContParent_iff (s : State) (k : Nat) :
    isContParent s k = true ↔
      ∃ j, (s.nodes k).parent = ParentRef.node j ∧
        (s.nodes j).isCont = true := by
  unfold isContParent
  cases hp : (s.nodes k).parent <;> simp

theorem matches_congr {pr pr' : Proxy}
    (h : pr'.matchSet = pr.matchSet) (c : ParentRef) :
    pr'.matches c = pr.matches c := by
  unfold Proxy.matches
  rw [h]

theorem ElemsFrame.ofUnchangedState (s : State) (a : Nat) : ElemsFrame s s a :=
  ⟨fun _ => ⟨rfl, rfl⟩, fun _ _ he => he, fun _ hk => hk, fun _ => rfl,
   fun _ _ => rfl, fun _ _ hk _ => hk⟩

theorem ElemsFrame.comp {s t u : State} {a : Nat}
    (h1 : ElemsFrame s t a) (h2 : ElemsFrame t u a) : ElemsFrame s u a := by
  obtain ⟨a1, c1, m1, x1, p1, q1⟩ := h1
  obtain ⟨a2, c2, m2, x2, p2, q2⟩ := h2
  refine ⟨fun k => ⟨((a2 k).1).trans (a1 k).1, ((a2 k).2).trans (a1 k).2⟩,
    fun k e he => c2 k e (c1 k e he), fun k hk => m2 k (m1 k hk),
    fun q => (x2 q).trans (x1 q), ?_, ?_⟩
  · intro k hk
    have hpe := p1 k hk
    have hct : isContParent t k = true := by
      rw [isContParent_iff] at hk ⊢
      obtain ⟨j, hpj, hcj⟩ := hk
      exact ⟨j, hpe.trans hpj, ((a1 j).1).trans hcj⟩
    exact (p2 k hct).trans hpe
  · intro k pid hk hm
    have h1' := q1 k pid hk hm
    have hm' : (t.proxies pid).matches (ParentRef.node a) = false :=
      (matches_congr (x1 pid) (ParentRef.node a)).trans hm
    exact q2 k pid h1' hm'

/-- A single `v.parent = self` step of the loop (taken only when `v` is
not already owned by a `Container`) satisfies the loop frame. -/
theorem parent_set_elem_frame (fuel : Nat) (s : State) (v a : Nat)
    (s1 : State) (hv : isContParent s v = false)
    (h : parent_set fuel s v (ParentRef.node a) = some (Except.ok s1)) :
    ElemsFrame s s1 a := by
  obtain ⟨hattr, hpar, hch, hmod, hms⟩ :=
    parent_set_frame fuel s v (ParentRef.node a) s1 h
  refine ⟨hattr, hch, hmod, hms, ?_, ?_⟩
  · intro k hk
    by_cases hkv : k = v
    · subst hkv
      rw [hv] at hk
      exact Bool.noConfusion hk
    · exact hpar k hkv
  · intro k pid hk hm
    by_cases hkv : k = v
    · subst hkv
      rw [parent_set_proxy_nomatch fuel s k pid a hk hm] at h
      injection h with h1
      injection h1 with h2
      rw [← h2]
      exact hk
    · exact (hpar k hkv).trans hk

/-- Every normally-returning run of the loop satisfies the frame. -/
theorem parentElems_frame (fuel : Nat) (a : Nat) :
    ∀ (es : List Nat) (s s' : State),
      parentElems fuel s a es = some (Except.ok s') →
      ElemsFrame s s' a
  | [], s, s', h => by
      simp only [parentElems] at h
      injection h with h1
      injection h1 with h2
      exact h2 ▸ ElemsFrame.ofUnchangedState s a
  | v :: rest, s, s', h => by
      simp only [parentElems] at h
      by_cases hv : isContParent s v = true
      · rw [if_pos hv] at h
        exact parentElems_frame fuel a rest s s' h
      · have hv' : isContParent s v = false := by simpa using hv
        rw [if_neg hv] at h
        cases hps : parent_set fuel s v (ParentRef.node a) with
        | none => rw [hps] at h; exact Option.noConfusion h
        | some r =>
            rw [hps] at h
            cases r with
            | error m =>
                injection h with h1
                exact Except.noConfusion h1
            | ok s1 =>
                exact ElemsFrame.comp
                  (parent_set_elem_frame fuel s v a s1 hv' hps)
                  (parentElems_frame fuel a rest s1 s' h)

/-- Once an element is adopted by the (Container) target, the rest of the
loop preserves the adoption. -/
theorem adopted_preserved (a : Nat) {s1 s' : State} (e : Nat)
    (hfr : ElemsFrame s1 s' a)
    (hCont1 : (s1.nodes a).isCont = true)
    (hp : (s1.nodes e).parent = ParentRef.node a)
    (hch : e ∈ (s1.nodes a).children)
    (hmod : (s1.nodes a).modified = true) :
    (s'.nodes e).parent = ParentRef.node a ∧
    e ∈ (s'.nodes a).children ∧ (s'.nodes a).modified = true := by
  obtain ⟨attr, ch, mo, ms, pp, pq⟩ := hfr
  refine ⟨?_, ch a e hch, mo a hmod⟩
  have hic : isContParent s1 e = true :=
    (isContParent_iff s1 e).mpr ⟨a, hp, hCont1⟩
  exact (pp e hic).trans hp

/-- Outcome of one `v.parent = self` loop step on `v` itself, per the
pre-state shape of `v`'s parent. -/
theorem parent_set_step_fate (fuel : Nat) (s : State) (v a : Nat)
    (s1 : State) (hCont : (s.nodes a).isCont = true)
    (hps : parent_set fuel s v (ParentRef.node a) = some (Except.ok s1)) :
    ((s.nodes v).parent = ParentRef.null →
       (s1.nodes v).parent = ParentRef.node a ∧
       v ∈ (s1.nodes a).children ∧ (s1.nodes a).modified = true) ∧
    (∀ pid, (s.nodes v).parent = ParentRef.proxy pid →
       ((s.proxies pid).matches (ParentRef.node a) = true →
          (s1.nodes v).parent = ParentRef.node a ∧
          v ∈ (s1.nodes a).children ∧ (s1.nodes a).modified = true) ∧
       ((s.proxies pid).matches (ParentRef.node a) = false →
          (s1.nodes v).parent = ParentRef.proxy pid)) := by
  constructor
  · intro hp
    rw [parent_set_null_cont fuel s v a hp hCont] at hps
    exact attach_spec fuel s v a s1 (map_ok_inj hps)
  · intro pid hp
    constructor
    · intro hm
      rw [parent_set_proxy_match fuel s v pid a hp hm] at hps
      exact attach_spec fuel s v a s1 (map_ok_inj hps)
    · intro hm
      rw [parent_set_proxy_nomatch fuel s v pid a hp hm] at hps
      injection hps with h1
      injection h1 with h2
      rw [← h2]
      exact hp

/-- An element other than the one just processed carries its
postcondition back through one loop step. -/
theorem ElemPost.transfer {fuel : Nat} {s s1 s' : State} (v a e : Nat)
    (hne : e ≠ v)
    (hps : parent_set fuel s v (ParentRef.node a) = some (Except.ok s1))
    (hpost : ElemPost s1 s' a e) : ElemPost s s' a e := by
  obtain ⟨hattr, hpar, hch, hmod, hms⟩ :=
    parent_set_frame fuel s v (ParentRef.node a) s1 hps
  have hpe : (s1.nodes e).parent = (s.nodes e).parent := hpar e hne
  obtain ⟨P0, P1, P2⟩ := hpost
  refine ⟨?_, ?_, ?_⟩
  · intro hp; exact P0 (hpe.trans hp)
  · intro j hp hic
    exact P1 j (hpe.trans hp) (((hattr j).1).trans hic)
  · intro pid hp
    have hm := matches_congr (hms pid) (ParentRef.node a)
    exact ⟨fun hmt => (P2 pid (hpe.trans hp)).1 (hm.trans hmt),
           fun hmf => (P2 pid (hpe.trans hp)).2 (hm.trans hmf)⟩

/-- The child-registration loop establishes the per-element
postcondition for every element of the list. -/
theorem parentElems_spec (fuel : Nat) (a : Nat) :
    ∀ (es : List Nat) (s s' : State),
      (s.nodes a).isCont = true →
      parentElems fuel s a es = some (Except.ok s') →
      ∀ e ∈ es, ElemPost s s' a e
  | [], _, _, _, _, e, he => absurd he (List.not_mem_nil e)
  | v :: rest, s, s', hCont, h, e, he => by
      simp only [parentElems] at h
      by_cases hv : isContParent s v = true
      · rw [if_pos hv] at h
        have hfr := parentElems_frame fuel a rest s s' h
        have hpostv : ElemPost s s' a v := by
          obtain ⟨j, hpj, hcj⟩ := (isContParent_iff s v).mp hv
          refine ⟨?_, ?_, ?_⟩
          · intro hp; rw [hp] at hpj; exact ParentRef.noConfusion hpj
          · intro j' hp hic
            exact (hfr.2.2.2.2.1 v hv).trans hp
          · intro pid hp; rw [hp] at hpj; exact ParentRef.noConfusion hpj
        rcases List.mem_cons.mp he with rfl | hmem
        · exact hpostv
        · exact parentElems_spec fuel a rest s s' hCont h e hmem
      · have hv' : isContParent s v = false := by simpa using hv
        rw [if_neg hv] at h
        cases hps : parent_set fuel s v (ParentRef.node a) with
        | none => rw [hps] at h; exact Option.noConfusion h
        | some r =>
            rw [hps] at h
            cases r with
            | error m =>
                injection h with h1
                exact Except.noConfusion h1
            | ok s1 =>
                have hstep := parent_set_elem_frame fuel s v a s1 hv' hps
                have hCont1 : (s1.nodes a).isCont = true :=
                  ((hstep.1 a).1).trans hCont
                have hrest := parentElems_frame fuel a rest s1 s' h
                have hfate := parent_set_step_fate fuel s v a s1 hCont hps
                have hpostv : ElemPost s s' a v := by
                  refine ⟨?_, ?_, ?_⟩
                  · intro hp
                    obtain ⟨h1, h2, h3⟩ := hfate.1 hp
                    exact adopted_preserved a v hrest hCont1 h1 h2 h3
                  · intro j hp hic
                    exact absurd ((isContParent_iff s v).mpr ⟨j, hp, hic⟩)
                      (by simp [hv'])
                  · intro pid hp
                    constructor
                    · intro hm
                      obtain ⟨h1, h2, h3⟩ := (hfate.2 pid hp).1 hm
                      exact adopted_preserved a v hrest hCont1 h1 h2 h3
                    · intro hm
                      have h1 := (hfate.2 pid hp).2 hm
                      have hm1 : (s1.proxies pid).matches (ParentRef.node a)
                          = false := by
                        rw [matches_congr (hstep.2.2.2.1 pid)
                          (ParentRef.node a)]
                        exact hm
                      exact hrest.2.2.2.2.2 v pid h1 hm1
                rcases List.mem_cons.mp he with rfl | hmem
                · exact hpostv
                · by_cases hev : e = v
                  · exact hev ▸ hpostv
                  · exact ElemPost.transfer v a e hev hps
                      (parentElems_spec fuel a rest s1 s' hCont1 h e hmem)

theorem gather_loop_ok : ∀ (l : List FieldSpec),
    (∀ f ∈ l, f ≠ FieldSpec.desc none) →
    gather_loop l = Except.ok (l.map specName)
  | [], _ => rfl
  | f :: fs, h => by
      have hf := h f (List.mem_cons_self f fs)
      have hfs : ∀ g ∈ fs, g ≠ FieldSpec.desc none :=
        fun g hg => h g (List.mem_cons_of_mem f hg)
      have ih := gather_loop_ok fs hfs
      cases f with
      | bare n => simp [gather_loop, check_field_spec, ih, specName]
      | desc o =>
          cases o with
          | some n => simp [gather_loop, check_field_spec, ih, specName]
          | none => exact absurd rfl hf

theorem gather_loop_err : ∀ (l : List FieldSpec),
    FieldSpec.desc none ∈ l → ∃ m, gather_loop l = Except.error m
  | [], h => absurd h (List.not_mem_nil _)
  | f :: fs, h => by
      cases f with
      | bare n =>
          have hm : FieldSpec.desc none ∈ fs := by
            rcases List.mem_cons.mp h with he | hm
            · exact absurd he (by simp)
            · exact hm
          obtain ⟨m, hmm⟩ := gather_loop_err fs hm
          exact ⟨m, by simp [gather_loop, check_field_spec, hmm]⟩
      | desc o =>
          cases o with
          | none => exact ⟨_, rfl⟩
          | some n =>
              have hm : FieldSpec.desc none ∈ fs := by
                rcases List.mem_cons.mp h with he | hm
                · exact absurd he (by simp)
                · exact hm
              obtain ⟨m, hmm⟩ := gather_loop_err fs hm
              exact ⟨m, by simp [gather_loop, check_field_spec, hmm]⟩

theorem map_specName_bare : ∀ (l : List String),
    (l.map FieldSpec.bare).map specName = l
  | [] => rfl
  | n :: ns => by simp [map_specName_bare ns, specName]

/-- The merge path of `__gather_fields`: ancestor names first, own names
after, when every own entry carries a name. -/
theorem gather_fields_merge (ancestor : List String) (own : List FieldSpec)
    (h : ∀ f ∈ own, f ≠ FieldSpec.desc none) :
    gather_fields true ancestor own =
      Except.ok (ancestor ++ own.map specName) := by
  have hall : ∀ f ∈ ancestor.map FieldSpec.bare ++ own,
      f ≠ FieldSpec.desc none := by
    intro f hf
    rcases List.mem_append.mp hf with hfa | hfo
    · obtain ⟨n, _, rfl⟩ := List.mem_map.mp hfa
      simp
    · exact h f hfo
  unfold gather_fields
  rw [if_pos rfl, gather_loop_ok _ hall, List.map_append, map_specName_bare]

/-- The error path of `__gather_fields`: a nameless descriptor is fatal at
class-definition time. -/
theorem gather_fields_merge_err (ancestor : List String)
    (own : List FieldSpec) (h : FieldSpec.desc none ∈ own) :
    ∃ m, gather_fields true ancestor own = Except.error m := by
  obtain ⟨m, hm⟩ :=
    gather_loop_err _ (List.mem_append.mpr (Or.inr h))
  exact ⟨m, by unfold gather_fields; rw [if_pos rfl]; exact hm⟩

/-- The upward walk of `get_ancestor` returns the first node of the
ancestor chain whose `data_type` equals the searched tag, and `None`
(i.e. `ParentRef.null`) when the chain is exhausted. -/
theorem get_ancestor_loop_chain (s : State) (t : String) :
    ∀ (fuel : Nat) (p : ParentRef) (l : List Nat),
      ancestorChain s fuel p = some l →
      get_ancestor_loop s t fuel p =
        some (match l.find? (fun i => (s.nodes i).dataType == t) with
              | some i => ParentRef.node i
              | none => ParentRef.null)
  | 0, p, l, h => by simp [ancestorChain] at h
  | fuel+1, ParentRef.null, l, h => by
      simp only [ancestorChain] at h
      injection h with h1
      subst h1
      simp [get_ancestor_loop]
  | fuel+1, ParentRef.proxy q, l, h => by
      simp [ancestorChain] at h
  | fuel+1, ParentRef.node i, l, h => by
      simp only [ancestorChain] at h
      cases hc : ancestorChain s fuel (s.nodes i).parent with
      | none => rw [hc] at h; simp at h
      | some l2 =>
          rw [hc] at h
          simp only [Option.map_some'] at h
          injection h with h1
          subst h1
          by_cases ht : (s.nodes i).dataType = t
          · have hb : ((s.nodes i).dataType == t) = true :=
              beq_iff_eq.mpr ht
            simp [List.find?, hb, get_ancestor_loop, ht]
          · have hb : ((s.nodes i).dataType == t) = false :=
              beq_eq_false_iff_ne.mpr ht
            have ih := get_ancestor_loop_chain s t fuel (s.nodes i).parent l2 hc
            simp [List.find?, hb, get_ancestor_loop, ht, ih]

/-! ## Auxiliary lemmas for the child-designated field setter -/

theorem setFields_keep (s : State) (i : Nat) (fv : List (String × CVal))
    (k : Nat) :
    ((setFields s i fv).nodes k).parent = (s.nodes k).parent ∧
    ((setFields s i fv).nodes k).isCont = (s.nodes k).isCont ∧
    ((setFields s i fv).nodes k).modified = (s.nodes k).modified ∧
    ((setFields s i fv).nodes k).children = (s.nodes k).children := by
  rw [setFields_nodes]; by_cases h : k = i <;> simp [h]

theorem setter_ok_inv {V : Type} {fields : List (String × V)}
    {name : String} {v : V} {fv : List (String × V)}
    (h : setter fields name (some v) = Except.ok fv) :
    fields.lookup name = none ∧ fv = fields ++ [(name, v)] := by
  by_cases hs : (fields.lookup name).isSome = true
  · exfalso
    have he : setter fields name (some v) =
        Except.error ("cannot set attribute " ++ name ++ " -- already set") := by
      simp [setter, hs]
    rw [he] at h
    exact Except.noConfusion h
  · have hnone : fields.lookup name = none :=
      Option.not_isSome_iff_eq_none.mp hs
    have he : setter fields name (some v)
        = Except.ok (fields ++ [(name, v)]) := by
      simp [setter, hs]
    rw [he] at h
    injection h with h1
    exact ⟨hnone, h1.symm⟩

theorem ElemPost.ofSetFields {s s' : State} {a e i : Nat}
    {fv : List (String × CVal)}
    (h : ElemPost (setFields s i fv) s' a e) : ElemPost s s' a e := by
  obtain ⟨P0, P1, P2⟩ := h
  have hp : ((setFields s i fv).nodes e).parent = (s.nodes e).parent :=
    (setFields_keep s i fv e).1
  exact ⟨fun he => P0 (hp.trans he),
    fun j hj hc =>
      P1 j (hp.trans hj) (((setFields_keep s i fv j).2.1).trans hc),
    fun pid hpp => P2 pid (hp.trans hpp)⟩

/-- Core of the child-setter specification, shared by the three
recognized value shapes: the field value is stored, and every listed
element satisfies the per-element postcondition. -/
theorem child_setter_core (fuel : Nat) (s : State) (a : Nat)
    (fname : String) (v : CVal) (fv : List (String × CVal)) (s' : State)
    (hCont : (s.nodes a).isCont = true)
    (hfv : fv = (s.nodes a).fieldVals ++ [(fname, v)])
    (hOk : parentElems fuel (setFields s a fv) a (elemsOf v)
        = some (Except.ok s')) :
    (s'.nodes a).fieldVals = (s.nodes a).fieldVals ++ [(fname, v)] ∧
    (∀ e ∈ elemsOf v, ElemPost s s' a e) := by
  have hCont1 : ((setFields s a fv).nodes a).isCont = true :=
    ((setFields_keep s a fv a).2.1).trans hCont
  have hfr := parentElems_frame fuel a (elemsOf v) (setFields s a fv) s' hOk
  constructor
  · have h1 : (s'.nodes a).fieldVals =
        ((setFields s a fv).nodes a).fieldVals := (hfr.1 a).2
    have h2 : ((setFields s a fv).nodes a).fieldVals = fv := by
      rw [setFields_nodes]; simp
    rw [h1, h2, hfv]
  · intro e he
    exact ElemPost.ofSetFields
      (parentElems_spec fuel a (elemsOf v) (setFields s a fv) s' hCont1
        hOk e he)

/-! ## Claim theorems -/

/-- Counterexample to claim C1 as stated: on a fixed-shape-array
(`numpy.ndarray`) backed buffer, `append` does NOT raise — it succeeds,
rebinding the payload to a new array with the element appended
(`np.append`), so the buffer's contents do change. -/
theorem data_append_fixed_array_counterexample :
    Data.append (DataVal.ndarray [1, 2, 3]) 4
        = Except.ok (DataVal.ndarray [1, 2, 3, 4]) ∧
    Data.extend (DataVal.ndarray [1, 2, 3]) [4, 5]
        = Except.ok (DataVal.ndarray [1, 2, 3, 4, 5]) :=
  ⟨rfl, rfl⟩

/-- Claim C1 (amended): `append`/`extend` fail — with a `ValueError`
naming the representation's concrete type, leaving the contents
unchanged — exactly when the backing representation is outside the
recognized set (growable list, fixed `numpy` array, external `h5py`
store); on all three recognized representations, including the
fixed-shape array, they succeed by appending at the tail (the `ndarray`
case rebinds the payload to a freshly grown array). -/
theorem data_mutation_policy :
    (∀ xs a, Data.append (DataVal.list xs) a
        = Except.ok (DataVal.list (xs ++ [a]))) ∧
    (∀ xs a, Data.append (DataVal.ndarray xs) a
        = Except.ok (DataVal.ndarray (xs ++ [a]))) ∧
    (∀ xs a, Data.append (DataVal.h5 xs) a
        = Except.ok (DataVal.h5 (xs ++ [a]))) ∧
    (∀ xs ys, Data.extend (DataVal.list xs) ys
        = Except.ok (DataVal.list (xs ++ ys))) ∧
    (∀ xs ys, Data.extend (DataVal.ndarray xs) ys
        = Except.ok (DataVal.ndarray (xs ++ ys))) ∧
    (∀ xs ys, Data.extend (DataVal.h5 xs) ys
        = Except.ok (DataVal.h5 (xs ++ ys))) ∧
    (∀ t a, Data.append (DataVal.other t) a
        = Except.error ("Data cannot append to object of type " ++ t)) ∧
    (∀ t ys, Data.extend (DataVal.other t) ys
        = Except.error ("Data cannot extend object of type " ++ t)) :=
  ⟨fun _ _ => rfl, fun _ _ => rfl, fun _ _ => rfl, fun _ _ => rfl,
   fun _ _ => rfl, fun _ _ => rfl, fun _ _ => rfl, fun _ _ => rfl⟩

/-- Claim C2: for an Attachable `x` whose parent is an unresolved proxy:
a matching concrete offer is adopted (parent set, child registered,
dirty flag propagated to the new parent); a non-matching offer leaves the
parent unchanged and is queued via `add_candidate`; offering `None`
raises (`InvalidReparentError`). -/
theorem proxy_resolution_spec (fuel : Nat) (s : State) (x pid : Nat)
    (hpar : (s.nodes x).parent = ParentRef.proxy pid) :
    (∀ j, (s.proxies pid).matches (ParentRef.node j) = true →
       (parent_set fuel s x (ParentRef.node j)).isSome = true →
       ∃ s', parent_set fuel s x (ParentRef.node j)
           = some (Except.ok s') ∧
         (s'.nodes x).parent = ParentRef.node j ∧
         x ∈ (s'.nodes j).children ∧ (s'.nodes j).modified = true) ∧
    (∀ j, (s.proxies pid).matches (ParentRef.node j) = false →
       ∃ s', parent_set fuel s x (ParentRef.node j)
           = some (Except.ok s') ∧
         (s'.nodes x).parent = ParentRef.proxy pid ∧
         (s'.proxies pid).candidates =
           (s.proxies pid).candidates ++ [ParentRef.node j]) ∧
    parent_set fuel s x ParentRef.null =
      some (Except.error none_over_proxy_msg) := by
  refine ⟨?_, ?_, parent_set_proxy_none fuel s x pid hpar⟩
  · intro j hm hsome
    rw [parent_set_proxy_match fuel s x pid j hpar hm] at hsome ⊢
    cases hat : attach fuel s x j with
    | none => rw [hat] at hsome; simp at hsome
    | some s' =>
        obtain ⟨h1, h2, h3⟩ := attach_spec fuel s x j s' hat
        exact ⟨s', rfl, h1, h2, h3⟩
  · intro j hm
    rw [parent_set_proxy_nomatch fuel s x pid j hpar hm]
    refine ⟨_, rfl, hpar, ?_⟩
    rw [updProxy_proxies_same]
    rfl

theorem proxy_resolution_spec_witness :
    ∃ s', parent_set 4 w2S 1 (ParentRef.node 0) = some (Except.ok s') ∧
      (s'.nodes 1).parent = ParentRef.node 0 ∧
      1 ∈ (s'.nodes 0).children ∧ (s'.nodes 0).modified = true :=
  (proxy_resolution_spec 4 w2S 1 0 rfl).1 0 rfl rfl

/-- Claim C3: once an Attachable's parent is a genuine (concrete)
Attachable, assigning any different value raises (`ReparentError`), and
re-assigning the identical current parent is a no-op that changes no
state. -/
theorem concrete_reparent_spec (fuel : Nat) (s : State) (a c : Nat)
    (h : (s.nodes a).parent = ParentRef.node c) :
    (∀ X, X ≠ ParentRef.node c →
       parent_set fuel s a X = some (Except.error reparent_msg)) ∧
    parent_set fuel s a (ParentRef.node c) = some (Except.ok s) :=
  ⟨fun X hne => parent_set_concrete_err fuel s a c X h hne,
   by rw [← h]; exact parent_set_identity fuel s a⟩

theorem concrete_reparent_spec_witness :
    parent_set 4 w3S 1 ParentRef.null
        = some (Except.error reparent_msg) ∧
    parent_set 4 w3S 1 (ParentRef.node 0) = some (Except.ok w3S) :=
  ⟨(concrete_reparent_spec 4 w3S 1 0 rfl).1 ParentRef.null (by decide),
   (concrete_reparent_spec 4 w3S 1 0 rfl).2⟩

/-- Claim C4: the generated settable-field setter is write-once:
assigning "no value" (`None`) is always a silent no-op that leaves the
mapping unchanged (so in particular a `None` after a stored value neither
raises nor changes it, and a `None` on an unset field does not mark it
set); the first real assignment stores the value; an assignment while the
name is present in `field_values` raises `AlreadySetError`. -/
theorem write_once_setter_spec {V : Type} (fields : List (String × V))
    (name : String) (v : V) :
    setter fields name (none : Option V) = Except.ok fields ∧
    (fields.lookup name = none →
       setter fields name (some v) = Except.ok (fields ++ [(name, v)])) ∧
    (∀ v0, fields.lookup name = some v0 →
       setter fields name (some v) =
         Except.error ("cannot set attribute " ++ name
           ++ " -- already set")) := by
  refine ⟨rfl, ?_, ?_⟩
  · intro h; simp [setter, h]
  · intro v0 h; simp [setter, h]

theorem write_once_setter_spec_witness :
    setter [("f", 1)] "f" (none : Option Int) = Except.ok [("f", 1)] ∧
    setter ([] : List (String × Int)) "f" (some 1)
        = Except.ok [("f", 1)] ∧
    setter [("f", 1)] "f" (some (2 : Int)) =
      Except.error ("cannot set attribute " ++ "f" ++ " -- already set") :=
  ⟨(write_once_setter_spec [("f", 1)] "f" (2 : Int)).1,
   (write_once_setter_spec ([] : List (String × Int)) "f" 1).2.1 rfl,
   (write_once_setter_spec [("f", 1)] "f" (2 : Int)).2.2 1 rfl⟩

/-- Counterexample to claim C5 as stated.  In the chain
`root(0) ← mid(1) ← leaf(2)` — reachable through the public API, as the
first conjunct shows — where `mid` is an `AbstractContainer` that is not
a `Container` instance (e.g. a `Data` node), setting the leaf's flag to
`True` leaves BOTH ancestors' flags `False`: the recursion of
`set_modified` stops as soon as the *parent* is not a `Container`
instance (container.py line 161 tests `isinstance(self.parent,
Container)`), not at the first ancestor whose own parent is not an
Attachable, as the claim states (the claim predicts
`mid.modified = root.modified = True` here, since `mid` IS an Attachable
whose parent is the Attachable `root`). -/
theorem dirty_propagation_counterexample :
    buildC5 = some c5S ∧
    set_modified 4 c5S 2 true = some c5T ∧
    (c5T.nodes 2).modified = true ∧
    (c5T.nodes 1).modified = false ∧
    (c5T.nodes 0).modified = false ∧
    (c5S.nodes 2).parent = ParentRef.node 1 ∧
    (c5S.nodes 1).parent = ParentRef.node 0 ∧
    (c5S.nodes 1).isCont = false ∧
    (c5S.nodes 2).modified = false ∧
    (c5S.nodes 1).modified = false ∧
    (c5S.nodes 0).modified = false :=
  ⟨rfl, rfl, rfl, rfl, rfl, rfl, rfl, rfl, rfl, rfl, rfl⟩

/-- Claim C5 (amended): setting `modified = True` on a node sets the flag
on the node and on the ancestors reached by repeatedly following `parent`
links *while the parent is a `Container` instance* (the chain computed by
`propagChain`: it stops at the root or at the first parent that is
absent, a proxy, or a non-`Container` Attachable such as a `Data` node),
and changes no other flag; setting `modified = False` changes only the
node itself and leaves every other node entirely unchanged.  For a
three-level all-`Container` chain this gives exactly the behaviour the
original claim describes (see the witness). -/
theorem dirty_propagation_spec (fuel : Nat) (s : State) (i : Nat)
    (l : List Nat) (h : propagChain s fuel i = some l) :
    (∃ s', set_modified fuel s i true = some s' ∧
       ∀ k, (s'.nodes k).modified =
         (if k ∈ l then true else (s.nodes k).modified)) ∧
    (∀ f, ∃ s2, set_modified (f+1) s i false = some s2 ∧
       (s2.nodes i).modified = false ∧
       ∀ k, k ≠ i → s2.nodes k = s.nodes k) := by
  refine ⟨set_modified_true_chain fuel s i l h, ?_⟩
  intro f
  refine ⟨markModified s i false, set_modified_false_eq f s i, ?_, ?_⟩
  · rw [markModified_nodes]; simp
  · intro k hk; rw [markModified_nodes]; simp [hk]

theorem dirty_propagation_spec_witness :
    ∃ s', set_modified 4 w5S 2 true = some s' ∧
      ∀ k, (s'.nodes k).modified =
        (if k ∈ [2, 1, 0] then true else (w5S.nodes k).modified) :=
  (dirty_propagation_spec 4 w5S 2 [2, 1, 0] rfl).1

/-- Counterexample to claim C6 as stated.  Node 1's parent is an
unresolved proxy — so "not yet a genuine Attachable" — and node 1 is
assigned through a child-designated field setter on the `Container`
node 0.  The claim predicts node 1 ends with `parent = node 0` and
`1 ∈ children(0)`; in fact the assignment is routed through the
proxy-resolution branch of the parent setter, the proxy does not match
node 0, and node 1's parent stays the proxy, node 0's children stay
empty, and node 0 is merely recorded as a resolution candidate. -/
theorem child_field_proxy_counterexample :
    child_setter 4 c6S 0 "f" (some (CVal.single 1))
        = some (Except.ok c6S') ∧
    (c6S.nodes 1).parent = ParentRef.proxy 0 ∧
    (c6S.nodes 0).isCont = true ∧
    (c6S'.nodes 1).parent = ParentRef.proxy 0 ∧
    (c6S'.nodes 0).children = [] ∧
    (c6S'.proxies 0).candidates = [ParentRef.node 0] :=
  ⟨rfl, rfl, rfl, rfl, rfl, rfl⟩

/-- Claim C6 (amended): when a child-designated field setter on a
`Container` instance `a` returns normally, the base write-once setter has
stored the assigned value under the field name, the value has been
normalized to an element list (a bare value to a one-element list, a
mapping to its values, a tuple/list used as-is — a Python `set` is NOT
recognized and can never yield a normal return), and every listed
element `e` satisfies: if `e`'s parent was unset, `e` ends owned by `a`
(`parent = a`, `e ∈ a.children`, `a.modified = True`); if `e`'s parent
was already a `Container` (including `a` itself), its ownership is
untouched; if `e`'s parent was an unresolved proxy, the assignment went
through the proxy-resolution protocol — adopted by `a` exactly when the
proxy matches `a`, and otherwise the proxy parent is unchanged.
(An element owned by a non-`Container` Attachable would make the setter
raise, so no normal return covers it.) -/
theorem child_field_setter_spec (fuel : Nat) (s : State) (a : Nat)
    (fname : String) (v : CVal) (s' : State)
    (hCont : (s.nodes a).isCont = true)
    (hOk : child_setter fuel s a fname (some v) = some (Except.ok s')) :
    (∀ is, v ≠ CVal.setv is) ∧
    (s'.nodes a).fieldVals = (s.nodes a).fieldVals ++ [(fname, v)] ∧
    (∀ e ∈ elemsOf v, ElemPost s s' a e) := by
  cases hset : setter (s.nodes a).fieldVals fname (some v) with
  | error msg =>
      exfalso
      unfold child_setter at hOk
      rw [hset] at hOk
      injection hOk with h1
      exact Except.noConfusion h1
  | ok fv =>
      obtain ⟨hlk, hfv⟩ := setter_ok_inv hset
      unfold child_setter at hOk
      rw [hset] at hOk
      cases v with
      | setv is =>
          exfalso
          injection hOk with h1
          exact Except.noConfusion h1
      | single i =>
          have hcore := child_setter_core fuel s a fname (CVal.single i)
            fv s' hCont hfv hOk
          exact ⟨fun _ h => CVal.noConfusion h, hcore.1, hcore.2⟩
      | seq is =>
          have hcore := child_setter_core fuel s a fname (CVal.seq is)
            fv s' hCont hfv hOk
          exact ⟨fun _ h => CVal.noConfusion h, hcore.1, hcore.2⟩
      | dict kvs =>
          have hcore := child_setter_core fuel s a fname (CVal.dict kvs)
            fv s' hCont hfv hOk
          exact ⟨fun _ h => CVal.noConfusion h, hcore.1, hcore.2⟩

theorem child_field_setter_spec_witness :
    (w6S'.nodes 1).parent = ParentRef.node 0 ∧
    1 ∈ (w6S'.nodes 0).children ∧ (w6S'.nodes 0).modified = true :=
  ((child_field_setter_spec 4 w6S 0 "f" (CVal.single 1) w6S' rfl rfl).2.2 1
    (by simp [elemsOf])).1 rfl

/-- Claim C7: for a type whose (Container-subclass) ancestor's resolved
field list is `ancestor` and whose own declared tuple is `own`, the
resolved field list is exactly `ancestor` (in order) followed by the own
declared names in declaration order; a bare name is normalized exactly
like the descriptor `{name: <name>}`; a descriptor missing `name` makes
the whole gather raise at type-definition time. -/
theorem fields_merge_spec (ancestor : List String)
    (own : List FieldSpec) :
    ((∀ f ∈ own, f ≠ FieldSpec.desc none) →
       gather_fields true ancestor own =
         Except.ok (ancestor ++ own.map specName)) ∧
    (FieldSpec.desc none ∈ own →
       ∃ m, gather_fields true ancestor own = Except.error m) ∧
    (∀ n, check_field_spec (FieldSpec.bare n)
        = check_field_spec (FieldSpec.desc (some n))) :=
  ⟨fun h => gather_fields_merge ancestor own h,
   fun h => gather_fields_merge_err ancestor own h,
   fun _ => rfl⟩

theorem fields_merge_spec_witness :
    gather_fields true ["base1", "base2"]
        [FieldSpec.bare "own1", FieldSpec.desc (some "own2")] =
      Except.ok ["base1", "base2", "own1", "own2"] ∧
    ∃ m, gather_fields true ["base1"] [FieldSpec.desc none]
        = Except.error m :=
  ⟨(fields_merge_spec ["base1", "base2"]
      [FieldSpec.bare "own1", FieldSpec.desc (some "own2")]).1 (by decide),
   (fields_merge_spec ["base1"] [FieldSpec.desc none]).2.1 (by decide)⟩

/-- Claim C8: `get_ancestor` with the type tag omitted returns the
immediate parent; with a tag it walks the `parent` chain upward and
returns the nearest ancestor whose `data_type` equals the tag
(the first hit of `find?` on the ancestor chain), or none
(`ParentRef.null`) when the root is reached without a match. -/
theorem get_ancestor_spec (fuel : Nat) (s : State) (x : Nat) :
    get_ancestor fuel s x none = some ((s.nodes x).parent) ∧
    (∀ t l, ancestorChain s fuel ((s.nodes x).parent) = some l →
       get_ancestor fuel s x (some t) =
         some (match l.find? (fun i => (s.nodes i).dataType == t) with
               | some i => ParentRef.node i
               | none => ParentRef.null)) :=
  ⟨rfl, fun t l h =>
    get_ancestor_loop_chain s t fuel ((s.nodes x).parent) l h⟩

theorem get_ancestor_spec_witness :
    get_ancestor 5 w8S 3 none = some (ParentRef.node 2) ∧
    get_ancestor 5 w8S 3 (some "A") = some (ParentRef.node 2) ∧
    get_ancestor 5 w8S 3 (some "B") = some (ParentRef.node 1) ∧
    get_ancestor 5 w8S 3 (some "C") = some ParentRef.null :=
  ⟨(get_ancestor_spec 5 w8S 3).1,
   (get_ancestor_spec 5 w8S 3).2 "A" [2, 1, 0] rfl,
   (get_ancestor_spec 5 w8S 3).2 "B" [2, 1, 0] rfl,
   (get_ancestor_spec 5 w8S 3).2 "C" [2, 1, 0] rfl⟩

/-- Claim C9: every Attachable is constructed with `modified = True`
(`__new__` sets the flag before the optional parent is processed, and no
construction path clears it), so a freshly created object reports
`modified = True`, and an explicit `set_modified(False)` is what makes it
`False` afterwards. -/
theorem fresh_modified_spec (fuel : Nat) (s : State) (i : Nat)
    (nm dt : String) (c : Bool) (p : ParentRef) (s' : State)
    (h : newContainer fuel s i nm dt c p = some (Except.ok s')) :
    (s'.nodes i).modified = true ∧
    (∀ f, ∃ s2, set_modified (f+1) s' i false = some s2 ∧
       (s2.nodes i).modified = false) := by
  unfold newContainer at h
  have hfr := parent_set_frame fuel _ i p s' h
  refine ⟨hfr.2.2.2.1 i (by simp), ?_⟩
  intro f
  exact ⟨markModified s' i false, set_modified_false_eq f s' i,
    by rw [markModified_nodes]; simp⟩

theorem fresh_modified_spec_witness :
    (w9S'.nodes 5).modified = true ∧
    ∃ s2, set_modified 1 w9S' 5 false = some s2 ∧
      (s2.nodes 5).modified = false :=
  ⟨(fresh_modified_spec 3 wBase 5 "nm" "T" true ParentRef.null w9S'
      rfl).1,
   (fresh_modified_spec 3 wBase 5 "nm" "T" true ParentRef.null w9S'
      rfl).2 0⟩
